import Mathlib

/-!
Verification development for the devpattern documentation worker.

The TypeScript source is shallowly embedded: timestamps are integers
(milliseconds since epoch, as produced by Date.getTime), JS strings are
lists of characters, the Redis-backed pending map of the batch processor
is an association list with JS Map semantics, and the Anthropic
generation client is an oracle parameter returning Except values.
-/

namespace DevPattern

/-! ## Data model (types.ts) -/

inductive TaskStatus where
  | pending
  | inProgress
  | completed
deriving DecidableEq

structure TaskCommit where
  sessionId : List Char
  taskId : List Char
  taskTitle : List Char
  description : Option (List Char)
  completedAtThought : Nat
  status : TaskStatus
  createdAt : Int
deriving DecidableEq

structure ThoughtRecord where
  sessionId : List Char
  thought : List Char
  thoughtNumber : Nat
  totalThoughts : Nat
  branchId : Option (List Char)
  isRevision : Option Bool
  timestamp : Int
deriving DecidableEq

inductive SessionStatus where
  | active
  | completed
  | finalized
deriving DecidableEq

inductive Outcome where
  | completed
  | abandoned
  | deferred
deriving DecidableEq

inductive Tier where
  | basic
  | premium
deriving DecidableEq

structure Session where
  id : List Char
  createdAt : Int
  updatedAt : Int
  status : SessionStatus
  outcome : Option Outcome
  thoughtCount : Nat
  taskCount : Nat
  tenantId : Option (List Char)
  tier : Option Tier
  agentSummary : Option (List Char)
  autoFinalized : Option Bool
deriving DecidableEq

structure SessionContext where
  session : Session
  thoughts : List ThoughtRecord
  tasks : List TaskCommit
deriving DecidableEq

structure DocumentationEntry where
  sessionId : List Char
  generatedAt : Int
  summary : List Char
  thoughtCount : Nat
  taskCount : Nat
  branches : List (List Char)
  content : List Char
  executiveSummary : Option (List Char)
  problemStatement : Option (List Char)
  approach : Option (List Char)
  outcome : Option (List Char)
  keyInsights : Option (List Char)
  tags : Option (List (List Char))
deriving DecidableEq

inductive EventType where
  | sessionThought
  | sessionTaskCompleted
  | sessionFinalized
  | sessionIdleTimeout
deriving DecidableEq

structure EventPayload where
  outcome : Option Outcome
  agentSummary : Option (List Char)
  thoughtCount : Option Nat
  taskCount : Option Nat
  tier : Option Tier
  retryCount : Option Nat
  idleMinutes : Option Nat
deriving DecidableEq

structure DevPatternEvent where
  type : EventType
  sessionId : List Char
  tenantId : Option (List Char)
  timestamp : Int
  payload : EventPayload
deriving DecidableEq

structure DeadLetterEntry where
  event : DevPatternEvent
  error : List Char
  failedAt : Int
  retryCount : Nat
deriving DecidableEq

/-! ## Configuration (config.ts)

Only the worker settings matter for the verified components; retryDelays
is the hard-coded table from loadConfig. -/

structure WorkerConfig where
  idleTimeoutMinutes : Nat
  batchSize : Nat
  batchWindowSeconds : Nat
  maxRetries : Nat
  retryDelays : List Nat
deriving DecidableEq

def defaultConfig : WorkerConfig :=
  { idleTimeoutMinutes := 10
    batchSize := 5
    batchWindowSeconds := 30
    maxRetries := 3
    retryDelays := [5000, 30000, 120000] }

/-! ## Event intake and dispatch (worker.ts)

processSession loads the session context and the existing documentation
entry; both loads are modelled as the Option-valued inputs. The result
records which path the body takes: throwing on a missing session,
returning early on an up-to-date document, queueing for the batch
processor (thought count at most 20), or staged summarization. -/

inductive ProcessResult where
  | notFound
  | skipped
  | queuedBatch
  | stagedGeneration
deriving DecidableEq

def processSession (sessionContext : Option SessionContext)
    (existingDoc : Option DocumentationEntry) : ProcessResult :=
  match sessionContext with
  | none => .notFound
  | some ctx =>
    let upToDate :=
      match existingDoc with
      | some doc =>
        decide (ctx.session.updatedAt < doc.generatedAt)
          && (doc.thoughtCount == ctx.thoughts.length)
          && (doc.taskCount == ctx.tasks.length)
      | none => false
    if upToDate then .skipped
    else if ctx.thoughts.length ≤ 20 then .queuedBatch
    else .stagedGeneration

/-- The staleness predicate exactly as the specification words it: an
entry is stale when its generatedAt precedes (is strictly before) the
session's updatedAt, or its captured counts differ from current counts. -/
def specStale (doc : DocumentationEntry) (ctx : SessionContext) : Prop :=
  doc.generatedAt < ctx.session.updatedAt
    ∨ doc.thoughtCount ≠ ctx.thoughts.length
    ∨ doc.taskCount ≠ ctx.tasks.length

instance (doc : DocumentationEntry) (ctx : SessionContext) :
    Decidable (specStale doc ctx) := by
  unfold specStale; infer_instance

/-! ## Retry scheduling and dead-lettering (worker.ts) -/

/-- JS indexing with the falsy fallback from scheduleRetry:
retryDelays[retryCount - 1] or else retryDelays[retryDelays.length - 1].
An out-of-range index yields undefined, which is falsy, as is a 0 entry. -/
def delayFor (delays : List Nat) (retryCount : Nat) : Nat :=
  if delays.getD (retryCount - 1) 0 = 0 then delays.getD (delays.length - 1) 0
  else delays.getD (retryCount - 1) 0

def setRetryCount (e : DevPatternEvent) (n : Nat) : DevPatternEvent :=
  { e with payload := { e.payload with retryCount := some n } }

inductive FailOutcome where
  | scheduledRetry (event : DevPatternEvent) (delay : Nat)
  | deadLettered (entry : DeadLetterEntry)
deriving DecidableEq

/-- The catch-branch of handleEvent for an event whose processing failed:
retryCount below maxRetries schedules a retry carrying retryCount + 1,
otherwise the event moves to the dead-letter list with the configured
maxRetries recorded. -/
def handleEventFailure (cfg : WorkerConfig) (now : Int) (err : List Char)
    (e : DevPatternEvent) : FailOutcome :=
  let retryCount := e.payload.retryCount.getD 0
  if retryCount < cfg.maxRetries then
    .scheduledRetry (setRetryCount e (retryCount + 1))
      (delayFor cfg.retryDelays (retryCount + 1))
  else
    .deadLettered { event := e, error := err, failedAt := now,
                    retryCount := cfg.maxRetries }

/-- Trajectory of an always-failing event: each scheduled retry is
redelivered (the retry processor re-invokes handleEvent on the stored
event) and fails again, until the dead letter ends the loop. Fuel bounds
the recursion; any fuel above maxRetries is enough. -/
def runAlwaysFailing (cfg : WorkerConfig) (now : Int) (err : List Char) :
    Nat → DevPatternEvent → List FailOutcome
  | 0, _ => []
  | fuel + 1, e =>
    match handleEventFailure cfg now err e with
    | .scheduledRetry e2 d =>
        .scheduledRetry e2 d :: runAlwaysFailing cfg now err fuel e2
    | .deadLettered entry => [.deadLettered entry]

/-- The backoff table entry named by the spec: index into the table,
clamped to the last entry beyond the table length. Index k corresponds
to the retry carrying retryCount k + 1. -/
def clampDelay (delays : List Nat) (k : Nat) : Nat :=
  if k < delays.length then delays.getD k 0
  else delays.getD (delays.length - 1) 0

def isSchedRetry : FailOutcome → Bool
  | .scheduledRetry _ _ => true
  | .deadLettered _ => false

def isDeadLettered : FailOutcome → Bool
  | .scheduledRetry _ _ => false
  | .deadLettered _ => true

/-! ## Batch accumulator (batch-processor.ts)

The pending Map from session id to context is an association list in
insertion order with JS Map semantics: set on an existing key replaces
the value in place, set on a new key appends; values() iterates in
insertion order; delete removes the key. The window timer and the
generation call are outside the pending-state transition modelled here;
processBatch returns the sessions handed to the tier batches together
with the pending map left behind. -/

def mapSet {α : Type} (m : List (List Char × α)) (k : List Char) (v : α) :
    List (List Char × α) :=
  match m with
  | [] => [(k, v)]
  | p :: rest => if p.1 = k then (k, v) :: rest else p :: mapSet rest k v

def mapGet {α : Type} (m : List (List Char × α)) (k : List Char) : Option α :=
  match m with
  | [] => none
  | p :: rest => if p.1 = k then some p.2 else mapGet rest k

abbrev PendingQueue := List (List Char × SessionContext)

/-- Invariant of the pending map: each stored context is keyed by its own
session id (queueSession always inserts at sessionContext.session.id). -/
def wfQueue (q : PendingQueue) : Prop :=
  ∀ p ∈ q, p.2.session.id = p.1

instance (q : PendingQueue) : Decidable (wfQueue q) := by
  unfold wfQueue; infer_instance

def processBatch (batchSize : Nat) (q : PendingQueue) :
    List SessionContext × PendingQueue :=
  let sessions := (q.map Prod.snd).take batchSize
  let q2 := sessions.foldl
    (fun acc s => acc.filter (fun p => decide (p.1 ≠ s.session.id))) q
  (sessions, q2)

def queueSession (batchSize : Nat) (q : PendingQueue) (ctx : SessionContext) :
    List SessionContext × PendingQueue :=
  let q1 := mapSet q ctx.session.id ctx
  if batchSize ≤ q1.length then processBatch batchSize q1 else ([], q1)

def flush (batchSize : Nat) (q : PendingQueue) :
    List SessionContext × PendingQueue :=
  if 0 < q.length then processBatch batchSize q else ([], q)

/-- Tier grouping of a flushed batch: tier !== 'premium' (including an
absent tier) goes basic, tier === 'premium' goes premium. -/
def tierGroups (sessions : List SessionContext) :
    List SessionContext × List SessionContext :=
  (sessions.filter (fun s => decide (s.session.tier ≠ some Tier.premium)),
   sessions.filter (fun s => decide (s.session.tier = some Tier.premium)))

/-- processTierBatch returns immediately on an empty group and otherwise
issues exactly one generation call for the whole group. -/
def tierBatchCallCount (sessions : List SessionContext) : Nat :=
  if sessions.length = 0 then 0 else 1

def processBatchCallCount (sessions : List SessionContext) : Nat :=
  tierBatchCallCount (tierGroups sessions).1
    + tierBatchCallCount (tierGroups sessions).2

/-! ## JS string primitives

JS strings are embedded as lists of characters. jsSpace is the ASCII
part of the \s regex class (JS additionally includes some Unicode spaces,
irrelevant to the delimiter protocol); jsTrim mirrors String.trim over
that class. -/

def jsSpace (c : Char) : Bool :=
  c == ' ' || c == '\t' || c == '\n' || c == '\r'
    || c == Char.ofNat 11 || c == Char.ofNat 12

def jsTrim (s : List Char) : List Char :=
  ((s.dropWhile jsSpace).reverse.dropWhile jsSpace).reverse

def lower (s : List Char) : List Char := s.map Char.toLower

/-- The first argument read as a pattern starting the second list. -/
def leadsWith : List Char → List Char → Bool
  | [], _ => true
  | _ :: _, [] => false
  | p :: ps, c :: cs => p == c && leadsWith ps cs

/-- Split at the first (leftmost) occurrence of pat: before the match and
after it, none when pat does not occur. -/
def splitFirst (pat : List Char) : List Char → Option (List Char × List Char)
  | [] => if leadsWith pat [] then some ([], []) else none
  | c :: cs =>
    if leadsWith pat (c :: cs) then some ([], (c :: cs).drop pat.length)
    else (splitFirst pat cs).map (fun ba => (c :: ba.1, ba.2))

/-- Case-insensitive splitFirst (the i regex flag): the occurrence is
located on the lowercased text, the returned pieces keep original case. -/
def splitFirstCI (pat : List Char) : List Char → Option (List Char × List Char)
  | [] => if leadsWith (lower pat) [] then some ([], []) else none
  | c :: cs =>
    if leadsWith (lower pat) (lower (c :: cs)) then
      some ([], (c :: cs).drop pat.length)
    else (splitFirstCI pat cs).map (fun ba => (c :: ba.1, ba.2))

/-! ## Section extraction (extractSection / extractTags)

The regex in the source matches the header case-insensitively, the \s*
then greedily takes whitespace, and the lazy capture with its lookahead
stops at the first following section-header marker or at end of string;
the capture is then trimmed. -/

def headerStart : List Char := ['#', '#', ' ']

def headerMarker (sectionName : List Char) : List Char :=
  headerStart ++ sectionName

def takeUntilHeader : List Char → List Char
  | [] => []
  | c :: cs => if leadsWith headerStart (c :: cs) then []
               else c :: takeUntilHeader cs

def extractSection (content : List Char) (sectionName : List Char) : List Char :=
  match splitFirstCI (headerMarker sectionName) content with
  | none => []
  | some ba => jsTrim (takeUntilHeader (ba.2.dropWhile jsSpace))

/-- JS String.split on a comma: an empty string yields one empty group. -/
def splitOnComma : List Char → List (List Char)
  | [] => [[]]
  | c :: cs =>
    if c == ',' then [] :: splitOnComma cs
    else
      match splitOnComma cs with
      | [] => [[c]]
      | g :: gs => (c :: g) :: gs

def nameExecutiveSummary : List Char := ("Executive Summary").toList

def nameProblemStatement : List Char := ("Problem Statement").toList

def nameApproach : List Char := ("Approach").toList

def nameOutcome : List Char := ("Outcome").toList

def nameKeyInsights : List Char := ("Key Insights").toList

def nameTags : List Char := ("Tags").toList

def extractTags (content : List Char) : List (List Char) :=
  match extractSection content nameTags with
  | [] => []
  | t => ((splitOnComma t).map jsTrim).filter (fun x => 0 < x.length)

structure ParsedSections where
  executiveSummary : List Char
  problemStatement : List Char
  approach : List Char
  outcome : List Char
  keyInsights : List Char
  tags : List (List Char)
deriving DecidableEq

def parseDocumentation (content : List Char) : ParsedSections :=
  { executiveSummary := extractSection content nameExecutiveSummary
    problemStatement := extractSection content nameProblemStatement
    approach := extractSection content nameApproach
    outcome := extractSection content nameOutcome
    keyInsights := extractSection content nameKeyInsights
    tags := extractTags content }

/-! ## Staged summarizer (summarizer.ts, prompts/staged-summary.ts)

The prompt texts are an external contract; a generation request is
modelled by the arguments handed to the prompt builder, and the
generation client by an oracle from requests to Except results. -/

def STAGE_SIZE : Nat := 20

inductive GenPrompt where
  | stagePrompt (thoughts : List ThoughtRecord) (stageNumber totalStages : Nat)
  | synthesisPrompt (stageSummaries : List (List Char))
      (tasks : List TaskCommit) (session : Session)
deriving DecidableEq

/-- The for-loop slicing thoughts.slice(i, i + STAGE_SIZE) for
i = 0, STAGE_SIZE, 2·STAGE_SIZE, …; fuel is the list length, enough
because every step with a positive chunk size drops at least one
element. -/
def chunksGo {α : Type} (n : Nat) : Nat → List α → List (List α)
  | _, [] => []
  | 0, l => [l]
  | fuel + 1, l => l.take n :: chunksGo n fuel (l.drop n)

def chunksOf {α : Type} (n : Nat) (l : List α) : List (List α) :=
  chunksGo n l.length l

/-- JS truthiness of thought.branchId: present and non-empty. -/
def hasBranch (t : ThoughtRecord) : Bool :=
  match t.branchId with
  | some (_ :: _) => true
  | _ => false

/-- Insertion-order deduplication, as the new Set(...) spread. -/
def dedupKeep (l : List (List Char)) : List (List Char) :=
  l.foldl (fun acc x => if acc.contains x then acc else acc ++ [x]) []

def branchList (thoughts : List ThoughtRecord) : List (List Char) :=
  dedupKeep ((thoughts.filter hasBranch).map (fun t => t.branchId.getD []))

def largeSessionSummary (n : Nat) : List Char :=
  ("Large session with ").toList ++ (Nat.repr n).toList ++ (" thoughts").toList

def mkStagedDoc (now : Int) (ctx : SessionContext) (content : List Char) :
    DocumentationEntry :=
  let parsed := parseDocumentation content
  { sessionId := ctx.session.id
    generatedAt := now
    summary := if parsed.executiveSummary = [] then
                 largeSessionSummary ctx.thoughts.length
               else parsed.executiveSummary
    thoughtCount := ctx.thoughts.length
    taskCount := ctx.tasks.length
    branches := branchList ctx.thoughts
    content := content
    executiveSummary := some parsed.executiveSummary
    problemStatement := some parsed.problemStatement
    approach := some parsed.approach
    outcome := some parsed.outcome
    keyInsights := some parsed.keyInsights
    tags := some parsed.tags }

/-- The stage loop: one generation call per chunk, in chunk order, with
1-based stage numbers; the first failure aborts the loop and the whole
run. Returns the issued calls and either the collected stage summaries in
stage order or the failure. -/
def runStages (gen : GenPrompt → Except (List Char) (List Char)) (total : Nat) :
    Nat → List (List ThoughtRecord) →
      List GenPrompt × Except (List Char) (List (List Char))
  | _, [] => ([], .ok [])
  | idx, c :: rest =>
    match gen (GenPrompt.stagePrompt c (idx + 1) total) with
    | .error e => ([GenPrompt.stagePrompt c (idx + 1) total], .error e)
    | .ok s =>
      let r := runStages gen total (idx + 1) rest
      (GenPrompt.stagePrompt c (idx + 1) total :: r.1,
       r.2.map (fun ss => s :: ss))

/-- The stage calls that a fully successful run issues, in order. -/
def stagePrompts (total : Nat) : Nat → List (List ThoughtRecord) → List GenPrompt
  | _, [] => []
  | idx, c :: rest =>
    GenPrompt.stagePrompt c (idx + 1) total :: stagePrompts total (idx + 1) rest

/-- The stage summaries a total oracle returns, in stage order. -/
def stageOutputs (g : GenPrompt → List Char) (total : Nat) :
    Nat → List (List ThoughtRecord) → List (List Char)
  | _, [] => []
  | idx, c :: rest =>
    g (GenPrompt.stagePrompt c (idx + 1) total)
      :: stageOutputs g total (idx + 1) rest

structure StagedRun where
  calls : List GenPrompt
  saved : List DocumentationEntry
  result : Except (List Char) DocumentationEntry

/-- stagedSummarization: chunk the thoughts, summarize every stage, then
one synthesis call over the stage summaries; saveDocumentation is
modelled by the saved list, written only in the fully successful branch. -/
def stagedSummarization (gen : GenPrompt → Except (List Char) (List Char))
    (now : Int) (sessionContext : SessionContext) : StagedRun :=
  match runStages gen
      ((sessionContext.thoughts.length + STAGE_SIZE - 1) / STAGE_SIZE) 0
      (chunksOf STAGE_SIZE sessionContext.thoughts) with
  | (calls, .error e) => { calls := calls, saved := [], result := .error e }
  | (calls, .ok stageSummaries) =>
    match gen (GenPrompt.synthesisPrompt stageSummaries
        sessionContext.tasks sessionContext.session) with
    | .error e =>
      { calls := calls ++ [GenPrompt.synthesisPrompt stageSummaries
          sessionContext.tasks sessionContext.session]
        saved := []
        result := .error e }
    | .ok content =>
      { calls := calls ++ [GenPrompt.synthesisPrompt stageSummaries
          sessionContext.tasks sessionContext.session]
        saved := [mkStagedDoc now sessionContext content]
        result := .ok (mkStagedDoc now sessionContext content) }

/-! ## Batch response parsing (prompts/batch-session.ts)

parseBatchResponse repeatedly executes the block regex
SESSION_START: id … SESSION_END over the response. The embedding scans
left to right; at each position it attempts a full match — the literal
start marker, optional whitespace, a greedy non-space id backtracking
until optional whitespace and === follow, then a lazy body up to the
first end marker — and on failure advances one character, exactly as the
regex engine searches for the leftmost match. -/

def startMarker : List Char := ("===SESSION_START:").toList

def endMarker : List Char := ("===SESSION_END===").toList

def eqMark : List Char := ['=', '=', '=']

/-- Backtracking of the greedy (\S+): candidate id lengths from the
longest proper one downwards; a shortened id is followed directly (the
released characters are non-space, so \s* must be empty) by ===. -/
def idBacktrack (run rest : List Char) : Nat → Option (List Char × List Char)
  | 0 => none
  | k + 1 =>
    if leadsWith eqMark (run.drop (k + 1) ++ rest) then
      some (run.take (k + 1), (run.drop (k + 1) ++ rest).drop 3)
    else idBacktrack run rest k

/-- The (\S+)\s*=== part of the block pattern, applied after the
whitespace following the colon: the full non-space run (which may be
followed by whitespace) is tried first, then shorter ids by
backtracking. Returns the id and the text after the closing ===. -/
def idSplit (s : List Char) : Option (List Char × List Char) :=
  let run := s.takeWhile (fun c => !(jsSpace c))
  let rest := s.drop run.length
  if run.length = 0 then none
  else if leadsWith eqMark (rest.dropWhile jsSpace) then
    some (run, (rest.dropWhile jsSpace).drop 3)
  else idBacktrack run rest (run.length - 1)

/-- One attempt of the whole block pattern at the head of s: id, raw
body (the lazy capture up to the first end marker), and the remaining
text after the end marker. -/
def matchBlock (s : List Char) : Option (List Char × List Char × List Char) :=
  if leadsWith startMarker s then
    match idSplit ((s.drop startMarker.length).dropWhile jsSpace) with
    | none => none
    | some ids =>
      match splitFirst endMarker ids.2 with
      | some ba => some (ids.1, ba.1, ba.2)
      | none => none
  else none

/-- The exec loop: find the leftmost match, emit it, continue after it.
Fuel is the text length; every step consumes at least one character. -/
def scanBlocksFuel : Nat → List Char → List (List Char × List Char)
  | 0, _ => []
  | _ + 1, [] => []
  | fuel + 1, c :: cs =>
    match matchBlock (c :: cs) with
    | some ibr => (ibr.1, ibr.2.1) :: scanBlocksFuel fuel ibr.2.2
    | none => scanBlocksFuel fuel cs

def scanBlocks (s : List Char) : List (List Char × List Char) :=
  scanBlocksFuel s.length s

structure ParsedBatchDoc where
  sessionId : List Char
  content : List Char
  executiveSummary : List Char
  problemStatement : List Char
  approach : List Char
  outcome : List Char
  keyInsights : List Char
  tags : List (List Char)
deriving DecidableEq

def blockEntry (b : List Char × List Char) : List Char × ParsedBatchDoc :=
  let content := jsTrim b.2
  (b.1,
   { sessionId := b.1
     content := content
     executiveSummary := extractSection content nameExecutiveSummary
     problemStatement := extractSection content nameProblemStatement
     approach := extractSection content nameApproach
     outcome := extractSection content nameOutcome
     keyInsights := extractSection content nameKeyInsights
     tags := extractTags content })

/-- parseBatchResponse builds a Map keyed by the session ids found in
the response text; the sessions argument is present in the source
signature but never read. -/
def parseBatchResponse (response : List Char)
    (sessions : List SessionContext) : List (List Char × ParsedBatchDoc) :=
  (scanBlocks response).foldl
    (fun docs b => mapSet docs (blockEntry b).1 (blockEntry b).2) []

def sessionWithSummary (n : Nat) : List Char :=
  ("Session with ").toList ++ (Nat.repr n).toList ++ (" thoughts").toList

def mkBatchDoc (now : Int) (s : SessionContext) (parsed : ParsedBatchDoc) :
    DocumentationEntry :=
  { sessionId := s.session.id
    generatedAt := now
    summary := if parsed.executiveSummary = [] then
                 sessionWithSummary s.thoughts.length
               else parsed.executiveSummary
    thoughtCount := s.thoughts.length
    taskCount := s.tasks.length
    branches := branchList s.thoughts
    content := parsed.content
    executiveSummary := some parsed.executiveSummary
    problemStatement := some parsed.problemStatement
    approach := some parsed.approach
    outcome := some parsed.outcome
    keyInsights := some parsed.keyInsights
    tags := some parsed.tags }

/-- The save loop of processTierBatch: one saveDocumentation per batch
session whose id has a parsed entry; ids without an entry are logged and
skipped. -/
def tierBatchSaves (now : Int)
    (parsedDocs : List (List Char × ParsedBatchDoc))
    (sessions : List SessionContext) : List DocumentationEntry :=
  sessions.filterMap
    (fun s => (mapGet parsedDocs s.session.id).map (mkBatchDoc now s))

/-! ## Idle session scanner (idle-scanner.ts)

The store accesses are parameters: the list of non-terminal sessions and
a function giving each session's tasks. scan returns, in order, the
session records persisted by updateSession paired with the
session.idle_timeout events published to the bus. -/

def autoFinalize (idleTimeoutMinutes : Nat) (now : Int) (session : Session)
    (tasks : List TaskCommit) : Session × DevPatternEvent :=
  let completedTasks :=
    (tasks.filter (fun t => decide (t.status = TaskStatus.completed))).length
  let outcome := if 0 < completedTasks then Outcome.completed
                 else Outcome.abandoned
  ({ session with
      status := SessionStatus.finalized
      outcome := some outcome
      autoFinalized := some true
      updatedAt := now },
   { type := .sessionIdleTimeout
     sessionId := session.id
     tenantId := session.tenantId
     timestamp := now
     payload := { outcome := some outcome
                  agentSummary := none
                  thoughtCount := some session.thoughtCount
                  taskCount := some session.taskCount
                  tier := some (session.tier.getD Tier.basic)
                  retryCount := none
                  idleMinutes := some idleTimeoutMinutes } })

def scan (idleTimeoutMinutes : Nat) (now : Int)
    (tasksOf : List Char → List TaskCommit)
    (activeSessions : List Session) : List (Session × DevPatternEvent) :=
  (activeSessions.filter
      (fun s =>
        decide ((idleTimeoutMinutes : Int) * 60 * 1000 < now - s.updatedAt))).map
    (fun s => autoFinalize idleTimeoutMinutes now s (tasksOf s.id))

/-! ## Concrete fixtures for counterexamples and witnesses -/

def sessionA : Session :=
  { id := ['a'], createdAt := 0, updatedAt := 0, status := .finalized,
    outcome := none, thoughtCount := 0, taskCount := 0, tenantId := none,
    tier := none, agentSummary := none, autoFinalized := none }

def ctxA : SessionContext :=
  { session := sessionA, thoughts := [], tasks := [] }

def docA : DocumentationEntry :=
  { sessionId := ['a'], generatedAt := 0, summary := [], thoughtCount := 0,
    taskCount := 0, branches := [], content := [], executiveSummary := none,
    problemStatement := none, approach := none, outcome := none,
    keyInsights := none, tags := none }

def sessionB : Session :=
  { id := ['b'], createdAt := 0, updatedAt := 0, status := .finalized,
    outcome := none, thoughtCount := 0, taskCount := 0, tenantId := none,
    tier := none, agentSummary := none, autoFinalized := none }

def ctxB : SessionContext :=
  { session := sessionB, thoughts := [], tasks := [] }

/-- Two distinct sessions pending at once. -/
def qC3 : PendingQueue := [(['a'], ctxA), (['b'], ctxB)]

def thought0 : ThoughtRecord :=
  { sessionId := ['a'], thought := ['t'], thoughtNumber := 1,
    totalThoughts := 45, branchId := none, isRevision := none,
    timestamp := 0 }

/-- A large session: 45 recorded thoughts. -/
def ctx45 : SessionContext :=
  { session := sessionA, thoughts := List.replicate 45 thought0, tasks := [] }

/-- A large session: 25 recorded thoughts, two stages. -/
def ctx25 : SessionContext :=
  { session := sessionA, thoughts := List.replicate 25 thought0, tasks := [] }

/-- A generation oracle that fails exactly on the stage-2 call. -/
def genFail2 : GenPrompt → Except (List Char) (List Char)
  | .stagePrompt _ 2 _ => .error ['x']
  | _ => .ok []

/-- A response holding two well-formed blocks with the same session id. -/
def dupResponse : List Char :=
  ("===SESSION_START: a===\nx\n===SESSION_END===\n===SESSION_START: a===\ny\n===SESSION_END===").toList

/-- A response whose single block carries an id outside any batch. -/
def zResponse : List Char :=
  ("===SESSION_START: z===\nbody\n===SESSION_END===").toList

/-- An active session that has been idle since time 0. -/
def sessionC : Session :=
  { id := ['c'], createdAt := 0, updatedAt := 0, status := .active,
    outcome := none, thoughtCount := 1, taskCount := 1, tenantId := none,
    tier := none, agentSummary := none, autoFinalized := none }

def taskDone : TaskCommit :=
  { sessionId := ['c'], taskId := ['1'], taskTitle := ['t'],
    description := none, completedAtThought := 1,
    status := .completed, createdAt := 0 }

def tasksOfC : List Char → List TaskCommit := fun _ => [taskDone]

def eventA : DevPatternEvent :=
  { type := .sessionFinalized, sessionId := ['a'], tenantId := none,
    timestamp := 0,
    payload := { outcome := none, agentSummary := none, thoughtCount := none,
                 taskCount := none, tier := none, retryCount := none,
                 idleMinutes := none } }

/-! ## C1: staleness short-circuit in processSession -/

/-- C1 (counterexample): the claimed equivalence "no generation path iff
the entry is not stale", with staleness defined as generatedAt preceding
updatedAt or a count mismatch, fails when generatedAt equals updatedAt
with matching counts: the entry is not stale by that definition, yet
processSession still routes the session to a generation path. -/
theorem c1_claim_false_at_boundary :
    ¬ ((processSession (some ctxA) (some docA) = ProcessResult.skipped) ↔
        ¬ specStale docA ctxA) := by
  decide

/-- C1 (amended): processSession takes no generation path if and only if
the existing entry's generatedAt is strictly newer than the session's
updatedAt and the captured thought/task counts equal the current counts
(so an entry is regenerated when generatedAt is at or before updatedAt,
not only strictly before); and with a loaded context the outcome is
always exactly one of skip, batch queueing, or staged generation. In
particular redelivering a finalize event for a session whose stored
document is strictly newer than updatedAt with matching counts triggers
zero generation calls. -/
theorem c1_staleness_short_circuit (ctx : SessionContext)
    (doc : DocumentationEntry) :
    (processSession (some ctx) (some doc) = ProcessResult.skipped ↔
       (ctx.session.updatedAt < doc.generatedAt
         ∧ doc.thoughtCount = ctx.thoughts.length
         ∧ doc.taskCount = ctx.tasks.length))
    ∧ (processSession (some ctx) (some doc) = ProcessResult.skipped
        ∨ processSession (some ctx) (some doc) = ProcessResult.queuedBatch
        ∨ processSession (some ctx) (some doc) = ProcessResult.stagedGeneration) := by
  simp only [processSession]
  have hb : (decide (ctx.session.updatedAt < doc.generatedAt)
      && (doc.thoughtCount == ctx.thoughts.length)
      && (doc.taskCount == ctx.tasks.length)) = true ↔
      (ctx.session.updatedAt < doc.generatedAt
        ∧ doc.thoughtCount = ctx.thoughts.length
        ∧ doc.taskCount = ctx.tasks.length) := by
    simp [Bool.and_eq_true, decide_eq_true_eq, beq_iff_eq, and_assoc]
  constructor
  · split_ifs with h h2
    · simp only [true_iff]
      exact hb.mp h
    · simp only [reduceCtorEq, false_iff]
      intro hc
      exact h (hb.mpr hc)
    · simp only [reduceCtorEq, false_iff]
      intro hc
      exact h (hb.mpr hc)
  · split_ifs <;> simp

/-! ## C2: bounded retry with backoff, then dead-lettering -/

theorem setRetryCount_setRetryCount (e : DevPatternEvent) (a b : Nat) :
    setRetryCount (setRetryCount e a) b = setRetryCount e b :=
  rfl

theorem delayFor_succ (delays : List Nat) (hpos : ∀ d ∈ delays, 0 < d)
    (k : Nat) : delayFor delays (k + 1) = clampDelay delays k := by
  unfold delayFor clampDelay
  simp only [Nat.add_sub_cancel]
  by_cases hk : k < delays.length
  · have hmem : delays.getD k 0 ∈ delays := by
      rw [List.getD_eq_getElem?_getD, List.getElem?_eq_getElem hk]
      exact List.getElem_mem hk
    have h0 := hpos _ hmem
    rw [if_neg (by omega), if_pos hk]
  · have h0 : delays.getD k 0 = 0 := by
      rw [List.getD_eq_getElem?_getD, List.getElem?_eq_none (by omega)]
      rfl
    rw [h0, if_pos rfl, if_neg hk]

theorem runAlwaysFailing_spec (cfg : WorkerConfig) (now : Int)
    (err : List Char) (hpos : ∀ d ∈ cfg.retryDelays, 0 < d) :
    ∀ (n : Nat) (e : DevPatternEvent) (fuel : Nat),
      e.payload.retryCount.getD 0 = cfg.maxRetries - n →
      n ≤ cfg.maxRetries → n < fuel →
      runAlwaysFailing cfg now err fuel e =
        (List.range' (cfg.maxRetries - n) n).map (fun k =>
          FailOutcome.scheduledRetry (setRetryCount e (k + 1))
            (clampDelay cfg.retryDelays k))
        ++ [FailOutcome.deadLettered
              { event := if n = 0 then e else setRetryCount e cfg.maxRetries,
                error := err, failedAt := now,
                retryCount := cfg.maxRetries }] := by
  intro n
  induction n with
  | zero =>
    intro e fuel hrc _ hfuel
    match fuel, hfuel with
    | f + 1, _ =>
      simp only [Nat.sub_zero] at hrc
      simp [runAlwaysFailing, handleEventFailure, hrc]
  | succ n ih =>
    intro e fuel hrc hle hfuel
    match fuel, hfuel with
    | f + 1, hfuel =>
      have hlt : cfg.maxRetries - (n + 1) < cfg.maxRetries := by omega
      have hstep : cfg.maxRetries - (n + 1) + 1 = cfg.maxRetries - n := by omega
      have ihe := ih (setRetryCount e (cfg.maxRetries - (n + 1) + 1)) f
        (by simp [setRetryCount, hstep]) (by omega) (by omega)
      simp only [runAlwaysFailing, handleEventFailure, hrc, hlt, if_pos]
      rw [ihe]
      rw [delayFor_succ cfg.retryDelays hpos]
      have hrange : List.range' (cfg.maxRetries - (n + 1)) (n + 1) =
          (cfg.maxRetries - (n + 1)) :: List.range' (cfg.maxRetries - n) n := by
        rw [List.range'_succ, hstep]
      rw [hrange]
      simp only [List.map_cons, List.cons_append, setRetryCount_setRetryCount]
      by_cases hn : n = 0
      · subst hn
        simp [hstep]
      · simp [hn]

/-- C2: an always-failing event with initial retryCount 0 is retried
exactly maxRetries times, the k-th retry (1-based) carrying
payload.retryCount = k and delay retryDelays[k-1] clamped to the last
table entry beyond the table length, and is then dead-lettered exactly
once with the recorded retryCount equal to the configured maxRetries. -/
theorem c2_retry_bound (cfg : WorkerConfig) (now : Int) (err : List Char)
    (e : DevPatternEvent) (fuel : Nat)
    (hpos : ∀ d ∈ cfg.retryDelays, 0 < d)
    (h0 : e.payload.retryCount.getD 0 = 0)
    (hfuel : cfg.maxRetries < fuel) :
    runAlwaysFailing cfg now err fuel e =
      (List.range cfg.maxRetries).map (fun k =>
        FailOutcome.scheduledRetry (setRetryCount e (k + 1))
          (clampDelay cfg.retryDelays k))
      ++ [FailOutcome.deadLettered
            { event := if cfg.maxRetries = 0 then e
                       else setRetryCount e cfg.maxRetries,
              error := err, failedAt := now, retryCount := cfg.maxRetries }]
    ∧ ((runAlwaysFailing cfg now err fuel e).filter isSchedRetry).length
        = cfg.maxRetries
    ∧ ((runAlwaysFailing cfg now err fuel e).filter isDeadLettered).length
        = 1 := by
  have h := runAlwaysFailing_spec cfg now err hpos cfg.maxRetries e fuel
    (by simpa using h0) (le_refl _) hfuel
  rw [Nat.sub_self] at h
  rw [List.range_eq_range']
  refine ⟨h, ?_, ?_⟩ <;>
    rw [h] <;>
    simp [List.filter_append, List.filter_map, Function.comp_def,
      isSchedRetry, isDeadLettered]

/-- C2 witness: at the default configuration (maxRetries = 3, backoff
table 5s/30s/2min) a fresh always-failing event is retried three times
and dead-lettered once. -/
theorem c2_retry_bound_witness :
    ((runAlwaysFailing defaultConfig 0 [] 4 eventA).filter isSchedRetry).length
        = defaultConfig.maxRetries
    ∧ ((runAlwaysFailing defaultConfig 0 [] 4 eventA).filter isDeadLettered).length
        = 1 :=
  (c2_retry_bound defaultConfig 0 [] eventA 4 (by decide) (by decide)
    (by decide)).2

/-! ## Pending-map lemmas -/

theorem mapSet_of_not_mem {α : Type} (k : List Char) (v : α) :
    ∀ (m : List (List Char × α)), k ∉ m.map Prod.fst →
      mapSet m k v = m ++ [(k, v)] := by
  intro m
  induction m with
  | nil => intro h; rfl
  | cons p rest ih =>
    intro h
    simp only [List.map_cons, List.mem_cons, not_or] at h
    unfold mapSet
    rw [if_neg (fun he => h.1 he.symm), ih h.2]
    rfl

theorem mapSet_length_of_mem {α : Type} (k : List Char) (v : α) :
    ∀ (m : List (List Char × α)), k ∈ m.map Prod.fst →
      (mapSet m k v).length = m.length := by
  intro m
  induction m with
  | nil => intro h; simp at h
  | cons p rest ih =>
    intro h
    unfold mapSet
    by_cases hk : p.1 = k
    · rw [if_pos hk]; rfl
    · rw [if_neg hk]
      simp only [List.map_cons, List.mem_cons] at h
      rcases h with h | h
      · exact absurd h.symm hk
      · simp [ih h]

theorem mapGet_mapSet_self {α : Type} (k : List Char) (v : α) :
    ∀ (m : List (List Char × α)), mapGet (mapSet m k v) k = some v := by
  intro m
  induction m with
  | nil => simp [mapSet, mapGet]
  | cons p rest ih =>
    unfold mapSet
    by_cases hk : p.1 = k
    · rw [if_pos hk]; simp [mapGet]
    · rw [if_neg hk]
      unfold mapGet
      rw [if_neg hk]
      exact ih

theorem foldl_filter_eq {α β : Type} (g : β → α → Bool) :
    ∀ (L : List β) (q : List α),
      L.foldl (fun acc s => acc.filter (g s)) q
        = q.filter (fun p => L.all (fun s => g s p)) := by
  intro L
  induction L with
  | nil => intro q; simp
  | cons s L ih =>
    intro q
    rw [List.foldl_cons, ih, List.filter_filter]
    apply List.filter_congr
    intro a _
    simp [Bool.and_comm]

theorem processBatch_drains (bs : Nat) (q : PendingQueue) (hwf : wfQueue q)
    (hlen : q.length ≤ bs) :
    processBatch bs q = (q.map Prod.snd, []) := by
  have htake : (q.map Prod.snd).take bs = q.map Prod.snd :=
    List.take_of_length_le (by simpa using hlen)
  simp only [processBatch, htake]
  rw [foldl_filter_eq]
  have hnil : q.filter
      (fun p => (q.map Prod.snd).all (fun s => decide (p.1 ≠ s.session.id)))
      = [] := by
    rw [List.filter_eq_nil_iff]
    intro p hp
    simp only [List.all_eq_true, decide_eq_true_eq]
    push_neg
    exact ⟨p.2, List.mem_map_of_mem Prod.snd hp, (hwf p hp).symm⟩
  rw [hnil]

/-! ## C3: drain flushes the pending map -/

/-- C3 (counterexample): with batchSize 1 and two pending sessions, a
single flush call processes only the first batchSize sessions and leaves
one session pending, so the claim that one flush always leaves zero
sessions pending regardless of the pending count fails. -/
theorem c3_claim_false_beyond_batch_size :
    (flush 1 qC3).2 ≠ [] := by
  decide

/-- C3 (amended): a single flush call empties the pending map and
processes every pending session whenever at most batchSize sessions are
pending (which covers every state queueSession can leave behind, since it
flushes as soon as the size reaches batchSize); with more than batchSize
pending, one flush processes only the first batchSize in insertion order
and leaves the remainder pending. -/
theorem c3_flush_drains (bs : Nat) (q : PendingQueue) (hwf : wfQueue q)
    (hlen : q.length ≤ bs) :
    (flush bs q).1 = q.map Prod.snd ∧ (flush bs q).2 = [] := by
  unfold flush
  by_cases h : 0 < q.length
  · rw [if_pos h, processBatch_drains bs q hwf hlen]
    exact ⟨rfl, rfl⟩
  · rw [if_neg h]
    have : q = [] := List.length_eq_zero.mp (by omega)
    subst this
    exact ⟨rfl, rfl⟩

/-- C3 witness: flushing a map holding one pending session with
batchSize 5 processes that session and leaves nothing pending. -/
theorem c3_flush_drains_witness :
    (flush 5 [(['a'], ctxA)]).1 = [ctxA] ∧ (flush 5 [(['a'], ctxA)]).2 = [] :=
  c3_flush_drains 5 [(['a'], ctxA)] (by decide) (by decide)

/-! ## C4: batch-size trigger and last-writer-wins -/

/-- C4: queueSession inserts under the session's own id; the call that
brings the pending size to batchSize flushes immediately, handing every
pending context (in insertion order) to the batch and leaving the map
empty; and queueing an id that is already pending overwrites the pending
entry without changing the size. -/
theorem c4_batch_size_trigger (bs : Nat) (q : PendingQueue)
    (ctx : SessionContext) (hwf : wfQueue q)
    (hnew : ctx.session.id ∉ q.map Prod.fst) (hlen : q.length + 1 = bs) :
    queueSession bs q ctx = (q.map Prod.snd ++ [ctx], [])
    ∧ (∀ (q0 : PendingQueue) (v : SessionContext),
        v.session.id ∈ q0.map Prod.fst →
          (mapSet q0 v.session.id v).length = q0.length
          ∧ mapGet (mapSet q0 v.session.id v) v.session.id = some v) := by
  constructor
  · have hq1 : mapSet q ctx.session.id ctx = q ++ [(ctx.session.id, ctx)] :=
      mapSet_of_not_mem _ _ q hnew
    have hwf1 : wfQueue (q ++ [(ctx.session.id, ctx)]) := by
      intro p hp
      rcases List.mem_append.mp hp with h | h
      · exact hwf p h
      · simp only [List.mem_singleton] at h
        subst h
        rfl
    have hlen1 : (q ++ [(ctx.session.id, ctx)]).length = bs := by
      simp [← hlen]
    unfold queueSession
    rw [hq1, if_pos (le_of_eq hlen1.symm),
      processBatch_drains bs _ hwf1 (le_of_eq hlen1)]
    simp
  · intro q0 v hmem
    exact ⟨mapSet_length_of_mem _ _ q0 hmem, mapGet_mapSet_self _ _ q0⟩

/-- C4 witness: with batchSize 1, queueing one session into an empty map
flushes it immediately, leaving zero pending. -/
theorem c4_batch_size_trigger_witness :
    queueSession 1 [] ctxA = ([ctxA], []) :=
  (c4_batch_size_trigger 1 [] ctxA (by decide) (by decide) (by decide)).1

/-! ## C9: tier grouping partitions a flushed batch -/

theorem filter_not_length {α : Type} (p : α → Bool) :
    ∀ l : List α,
      (l.filter p).length + (l.filter (fun a => !(p a))).length = l.length := by
  intro l
  induction l with
  | nil => rfl
  | cons a t ih =>
    by_cases h : p a <;> simp [List.filter_cons, h, ← ih] <;> omega

/-- C9: on a batch flush, tier grouping is a total partition of the
flushed sessions — a session is in the basic group exactly when its tier
is not premium (including an absent tier) and in the premium group
exactly when its tier is premium, the two group sizes add up to the whole
flush — and generation calls are issued only for non-empty groups, at
most two per flush and at least one when anything was flushed. -/
theorem c9_tier_partition (bs : Nat) (q : PendingQueue) :
    ((tierGroups (flush bs q).1).1.length
        + (tierGroups (flush bs q).1).2.length = (flush bs q).1.length)
    ∧ (∀ s ∈ (flush bs q).1,
        (s ∈ (tierGroups (flush bs q).1).1 ↔ s.session.tier ≠ some Tier.premium)
        ∧ (s ∈ (tierGroups (flush bs q).1).2 ↔ s.session.tier = some Tier.premium))
    ∧ processBatchCallCount (flush bs q).1 ≤ 2
    ∧ ((flush bs q).1 ≠ [] → 1 ≤ processBatchCallCount (flush bs q).1) := by
  set sessions := (flush bs q).1 with hs
  have hpred : (fun s : SessionContext =>
      decide (s.session.tier ≠ some Tier.premium))
      = (fun s : SessionContext =>
          !(decide (s.session.tier = some Tier.premium))) := by
    funext s
    simp [decide_not]
  refine ⟨?_, ?_, ?_, ?_⟩
  · simp only [tierGroups, hpred]
    rw [Nat.add_comm]
    exact filter_not_length _ sessions
  · intro s hmem
    constructor
    · simp [tierGroups, List.mem_filter, hmem]
    · simp [tierGroups, List.mem_filter, hmem]
  · unfold processBatchCallCount tierBatchCallCount
    split_ifs <;> omega
  · intro hne
    have hlen : 0 < sessions.length := List.length_pos.mpr hne
    have hsum := filter_not_length
      (fun s : SessionContext => decide (s.session.tier = some Tier.premium))
      sessions
    unfold processBatchCallCount tierBatchCallCount
    simp only [tierGroups, hpred]
    split_ifs <;> omega

/-- C9 witness: flushing two pending basic-tier sessions puts the first
one into the basic group and issues at least one generation call. -/
theorem c9_tier_partition_witness :
    ctxA ∈ (tierGroups (flush 5 qC3).1).1
    ∧ 1 ≤ processBatchCallCount (flush 5 qC3).1 :=
  ⟨((c9_tier_partition 5 qC3).2.1 ctxA (by decide)).1.mpr (by decide),
   (c9_tier_partition 5 qC3).2.2.2 (by decide)⟩

/-! ## Chunking lemmas -/

theorem chunksGo_fuel {α : Type} (n : Nat) :
    ∀ (f1 : Nat) (l : List α) (f2 : Nat), l.length ≤ f1 → l.length ≤ f2 →
      chunksGo (n + 1) f1 l = chunksGo (n + 1) f2 l := by
  intro f1
  induction f1 with
  | zero =>
    intro l f2 h1 _
    have hl : l = [] := List.length_eq_zero.mp (by omega)
    subst hl
    cases f2 <;> rfl
  | succ f1 ih =>
    intro l f2 h1 h2
    cases l with
    | nil => cases f2 <;> rfl
    | cons x xs =>
      cases f2 with
      | zero => simp at h2
      | succ f2 =>
        simp only [chunksGo]
        congr 1
        apply ih
        · rw [List.length_drop]
          simp only [List.length_cons] at h1 ⊢
          omega
        · rw [List.length_drop]
          simp only [List.length_cons] at h2 ⊢
          omega

theorem chunksOf_cons {α : Type} (n : Nat) (x : α) (xs : List α) :
    chunksOf (n + 1) (x :: xs)
      = (x :: xs).take (n + 1) :: chunksOf (n + 1) ((x :: xs).drop (n + 1)) := by
  unfold chunksOf
  simp only [List.length_cons, chunksGo]
  congr 1
  apply chunksGo_fuel
  · rw [List.length_drop]
    simp only [List.length_cons]
    omega
  · exact le_refl _

theorem chunksOf_eq_nil_iff {α : Type} (n : Nat) (l : List α) :
    chunksOf (n + 1) l = [] ↔ l = [] := by
  cases l with
  | nil => simp [chunksOf, chunksGo]
  | cons x xs => simp [chunksOf_cons]

theorem chunksOf_flatten {α : Type} (n : Nat) :
    ∀ (N : Nat) (l : List α), l.length ≤ N →
      (chunksOf (n + 1) l).flatten = l := by
  intro N
  induction N with
  | zero =>
    intro l h
    have hl : l = [] := List.length_eq_zero.mp (by omega)
    subst hl
    rfl
  | succ N ih =>
    intro l h
    cases l with
    | nil => rfl
    | cons x xs =>
      rw [chunksOf_cons, List.flatten_cons, ih]
      · exact List.take_append_drop _ _
      · rw [List.length_drop]
        simp only [List.length_cons] at h ⊢
        omega

theorem chunksOf_length {α : Type} (n : Nat) :
    ∀ (N : Nat) (l : List α), l.length ≤ N →
      (chunksOf (n + 1) l).length = (l.length + n) / (n + 1) := by
  intro N
  induction N with
  | zero =>
    intro l h
    have hl : l = [] := List.length_eq_zero.mp (by omega)
    subst hl
    have h0 : (List.length ([] : List α) + n) / (n + 1) = 0 :=
      Nat.div_eq_of_lt (by simp only [List.length_nil]; omega)
    rw [h0]
    rfl
  | succ N ih =>
    intro l h
    cases l with
    | nil =>
      have h0 : (List.length ([] : List α) + n) / (n + 1) = 0 :=
        Nat.div_eq_of_lt (by simp only [List.length_nil]; omega)
      rw [h0]
      rfl
    | cons x xs =>
      rw [chunksOf_cons]
      by_cases hle : xs.length ≤ n
      · have hd : (x :: xs).drop (n + 1) = [] :=
          List.drop_eq_nil_of_le (by simp only [List.length_cons]; omega)
        have hdiv : ((x :: xs).length + n) / (n + 1) = 1 := by
          apply Nat.div_eq_of_lt_le
          · simp only [List.length_cons]
            omega
          · simp only [List.length_cons]
            omega
        rw [hd, hdiv]
        rfl
      · have hdlen : ((x :: xs).drop (n + 1)).length = xs.length - n := by
          rw [List.length_drop]
          simp only [List.length_cons]
          omega
        have hrec := ih ((x :: xs).drop (n + 1))
          (by rw [hdlen]; simp only [List.length_cons] at h; omega)
        simp only [List.length_cons]
        rw [hrec, hdlen]
        have heq : xs.length + 1 + n = (xs.length - n + n) + (n + 1) := by
          omega
        rw [heq, Nat.add_div_right _ (Nat.succ_pos n)]

theorem chunksOf_mem_length {α : Type} (n : Nat) :
    ∀ (N : Nat) (l : List α), l.length ≤ N →
      ∀ c ∈ chunksOf (n + 1) l, 0 < c.length ∧ c.length ≤ n + 1 := by
  intro N
  induction N with
  | zero =>
    intro l h c hc
    have hl : l = [] := List.length_eq_zero.mp (by omega)
    subst hl
    simp [chunksOf, chunksGo] at hc
  | succ N ih =>
    intro l h c hc
    cases l with
    | nil => simp [chunksOf, chunksGo] at hc
    | cons x xs =>
      rw [chunksOf_cons, List.mem_cons] at hc
      rcases hc with hc | hc
      · subst hc
        rw [List.length_take]
        simp only [List.length_cons]
        omega
      · exact ih _ (by rw [List.length_drop]; simp only [List.length_cons] at h ⊢; omega) c hc

theorem chunksOf_getD {α : Type} (n : Nat) :
    ∀ (N : Nat) (l : List α), l.length ≤ N →
      ∀ i, i + 1 < (chunksOf (n + 1) l).length →
        ((chunksOf (n + 1) l).getD i []).length = n + 1 := by
  intro N
  induction N with
  | zero =>
    intro l h i hi
    have hl : l = [] := List.length_eq_zero.mp (by omega)
    subst hl
    simp [chunksOf, chunksGo] at hi
  | succ N ih =>
    intro l h i hi
    cases l with
    | nil => simp [chunksOf, chunksGo] at hi
    | cons x xs =>
      rw [chunksOf_cons] at hi ⊢
      cases i with
      | zero =>
        have hne : chunksOf (n + 1) ((x :: xs).drop (n + 1)) ≠ [] := by
          intro hnil
          rw [hnil] at hi
          simp at hi
        have hdne : (x :: xs).drop (n + 1) ≠ [] :=
          fun hd => hne (by rw [hd]; rfl)
        have hlen : n + 1 < (x :: xs).length := by
          by_contra hcon
          exact hdne (List.drop_eq_nil_of_le (by omega))
        simp only [List.getD_cons_zero, List.length_take]
        omega
      | succ i =>
        simp only [List.getD_cons_succ]
        apply ih _ (by rw [List.length_drop]; simp only [List.length_cons] at h ⊢; omega)
        simp only [List.length_cons] at hi
        omega

/-! ## Stage-loop lemmas -/

theorem runStages_ok (g : GenPrompt → List Char) (total : Nat) :
    ∀ (cs : List (List ThoughtRecord)) (idx : Nat),
      runStages (fun p => .ok (g p)) total idx cs
        = (stagePrompts total idx cs, .ok (stageOutputs g total idx cs)) := by
  intro cs
  induction cs with
  | nil => intro idx; rfl
  | cons c rest ih =>
    intro idx
    simp [runStages, stagePrompts, stageOutputs, ih, Except.map]

theorem runStages_error (gen : GenPrompt → Except (List Char) (List Char))
    (total : Nat) :
    ∀ (cs : List (List ThoughtRecord)) (idx : Nat) (calls : List GenPrompt)
      (e : List Char),
      runStages gen total idx cs = (calls, .error e) →
      ∃ ps p, calls = ps ++ [p] ∧ gen p = .error e
        ∧ ∀ q ∈ ps, ∃ s, gen q = .ok s := by
  intro cs
  induction cs with
  | nil =>
    intro idx calls e h
    simp [runStages] at h
  | cons c rest ih =>
    intro idx calls e h
    cases hg : gen (GenPrompt.stagePrompt c (idx + 1) total) with
    | error e0 =>
      simp only [runStages, hg, Prod.mk.injEq, Except.error.injEq] at h
      refine ⟨[], GenPrompt.stagePrompt c (idx + 1) total, ?_, ?_, ?_⟩
      · rw [← h.1]
        rfl
      · rw [hg]
        exact congrArg Except.error h.2
      · intro q hq
        simp at hq
    | ok s =>
      simp only [runStages, hg, Prod.mk.injEq] at h
      cases hr : (runStages gen total (idx + 1) rest).2 with
      | error e1 =>
        obtain ⟨ps, p, hps, hp, hok⟩ :=
          ih (idx + 1) (runStages gen total (idx + 1) rest).1 e1 (by rw [← hr])
        have he : e1 = e := by
          have h2 := h.2
          rw [hr] at h2
          simpa [Except.map] using h2
        refine ⟨GenPrompt.stagePrompt c (idx + 1) total :: ps, p, ?_, ?_, ?_⟩
        · rw [← h.1, hps]
          rfl
        · rw [hp, he]
        · intro q hq
          rcases List.mem_cons.mp hq with hq | hq
          · exact ⟨s, by rw [hq, hg]⟩
          · exact hok q hq
      | ok ss =>
        have h2 := h.2
        rw [hr] at h2
        simp [Except.map] at h2

theorem runStages_calls_ok (gen : GenPrompt → Except (List Char) (List Char))
    (total : Nat) :
    ∀ (cs : List (List ThoughtRecord)) (idx : Nat) (calls : List GenPrompt)
      (ss : List (List Char)),
      runStages gen total idx cs = (calls, .ok ss) →
      ∀ q ∈ calls, ∃ s, gen q = .ok s := by
  intro cs
  induction cs with
  | nil =>
    intro idx calls ss h q hq
    simp only [runStages, Prod.mk.injEq] at h
    rw [← h.1] at hq
    simp at hq
  | cons c rest ih =>
    intro idx calls ss h q hq
    cases hg : gen (GenPrompt.stagePrompt c (idx + 1) total) with
    | error e0 =>
      simp only [runStages, hg, Prod.mk.injEq] at h
      exact absurd h.2 (by simp)
    | ok s =>
      simp only [runStages, hg, Prod.mk.injEq] at h
      cases hr : (runStages gen total (idx + 1) rest).2 with
      | error e1 =>
        have h2 := h.2
        rw [hr] at h2
        simp [Except.map] at h2
      | ok ss1 =>
        rw [← h.1] at hq
        rcases List.mem_cons.mp hq with hq | hq
        · exact ⟨s, by rw [hq, hg]⟩
        · exact ih (idx + 1) (runStages gen total (idx + 1) rest).1 ss1
            (by rw [← hr]) q hq

/-! ## C5: staging partition and call order -/

/-- C5: for a session with more than STAGE_SIZE thoughts, the stage
chunking is a partition of the thought list into
ceil(length / STAGE_SIZE) contiguous stages whose concatenation in order
is the original list, every stage except possibly the last holding
exactly STAGE_SIZE thoughts and every stage holding between 1 and
STAGE_SIZE; a fully successful staged run issues exactly the stage calls
in increasing stage order followed by the single synthesis call over the
stage summaries in that same order; and 45 thoughts yield exactly 3
stages of sizes 20, 20, 5. -/
theorem c5_staging_partition (g : GenPrompt → List Char) (now : Int)
    (ctx : SessionContext) (hn : STAGE_SIZE < ctx.thoughts.length) :
    (chunksOf STAGE_SIZE ctx.thoughts).length
        = (ctx.thoughts.length + STAGE_SIZE - 1) / STAGE_SIZE
    ∧ (chunksOf STAGE_SIZE ctx.thoughts).flatten = ctx.thoughts
    ∧ (∀ c ∈ chunksOf STAGE_SIZE ctx.thoughts,
        0 < c.length ∧ c.length ≤ STAGE_SIZE)
    ∧ (∀ i, i + 1 < (chunksOf STAGE_SIZE ctx.thoughts).length →
        ((chunksOf STAGE_SIZE ctx.thoughts).getD i []).length = STAGE_SIZE)
    ∧ (stagedSummarization (fun p => .ok (g p)) now ctx).calls
        = stagePrompts ((ctx.thoughts.length + STAGE_SIZE - 1) / STAGE_SIZE) 0
            (chunksOf STAGE_SIZE ctx.thoughts)
          ++ [GenPrompt.synthesisPrompt
                (stageOutputs g
                  ((ctx.thoughts.length + STAGE_SIZE - 1) / STAGE_SIZE) 0
                  (chunksOf STAGE_SIZE ctx.thoughts))
                ctx.tasks ctx.session]
    ∧ (ctx.thoughts.length = 45 →
        (chunksOf STAGE_SIZE ctx.thoughts).map List.length = [20, 20, 5]) := by
  have hlen : (chunksOf 20 ctx.thoughts).length
      = (ctx.thoughts.length + 19) / 20 :=
    chunksOf_length (α := ThoughtRecord) 19
      ctx.thoughts.length ctx.thoughts (le_refl _)
  have hflat : (chunksOf 20 ctx.thoughts).flatten = ctx.thoughts :=
    chunksOf_flatten (α := ThoughtRecord) 19
      ctx.thoughts.length ctx.thoughts (le_refl _)
  have hmem : ∀ c ∈ chunksOf 20 ctx.thoughts,
      0 < c.length ∧ c.length ≤ 20 :=
    chunksOf_mem_length (α := ThoughtRecord) 19
      ctx.thoughts.length ctx.thoughts (le_refl _)
  have hgetD : ∀ i, i + 1 < (chunksOf 20 ctx.thoughts).length →
      ((chunksOf 20 ctx.thoughts).getD i []).length = 20 :=
    chunksOf_getD (α := ThoughtRecord) 19
      ctx.thoughts.length ctx.thoughts (le_refl _)
  simp only [STAGE_SIZE]
  refine ⟨?_, hflat, hmem, hgetD, ?_, ?_⟩
  · rw [hlen]
    congr 1
  · have hok := runStages_ok g ((ctx.thoughts.length + 20 - 1) / 20)
      (chunksOf 20 ctx.thoughts) 0
    simp only [stagedSummarization, STAGE_SIZE, hok]
  · intro h45
    have hcs : (chunksOf 20 ctx.thoughts).length = 3 := by
      rw [hlen, h45]
    obtain ⟨a, b, c, habc⟩ := List.length_eq_three.mp hcs
    have ha : a.length = 20 := by
      have hx := hgetD 0 (by rw [hcs]; omega)
      simpa [habc] using hx
    have hb : b.length = 20 := by
      have hx := hgetD 1 (by rw [hcs]; omega)
      simpa [habc] using hx
    have hl := congrArg List.length hflat
    rw [habc, h45] at hl
    simp at hl
    have hc : c.length = 5 := by omega
    rw [habc]
    simp [ha, hb, hc]

/-- C5 witness: the concrete 45-thought session is cut into stages of
sizes 20, 20, 5. -/
theorem c5_staging_partition_witness :
    (chunksOf STAGE_SIZE ctx45.thoughts).map List.length = [20, 20, 5] :=
  (c5_staging_partition (fun _ => []) 0 ctx45 (by decide)).2.2.2.2.2 (by decide)

/-! ## C6: staged failure aborts the whole run -/

/-- C6: when a staged summarization run fails — whether on a stage call
or on the synthesis call — no documentation entry is persisted (the save
set is empty, so the stored state is unchanged), and the run's call list
ends at exactly the one failing call, every earlier call having
succeeded; the caller receives that single failure. -/
theorem c6_staged_failure_atomic
    (gen : GenPrompt → Except (List Char) (List Char)) (now : Int)
    (ctx : SessionContext) (e : List Char)
    (h : (stagedSummarization gen now ctx).result = .error e) :
    (stagedSummarization gen now ctx).saved = []
    ∧ ∃ ps p, (stagedSummarization gen now ctx).calls = ps ++ [p]
        ∧ gen p = .error e
        ∧ ∀ q ∈ ps, ∃ s, gen q = .ok s := by
  rcases hr : runStages gen
      ((ctx.thoughts.length + STAGE_SIZE - 1) / STAGE_SIZE) 0
      (chunksOf STAGE_SIZE ctx.thoughts) with ⟨calls0, r⟩
  cases r with
  | error e0 =>
    simp only [stagedSummarization, hr, Except.error.injEq] at h ⊢
    obtain ⟨ps, p, hps, hp, hok⟩ := runStages_error gen _ _ 0 calls0 e0 hr
    exact ⟨trivial, ps, p, hps, by rw [hp]; exact congrArg Except.error h, hok⟩
  | ok ss =>
    cases hg : gen (GenPrompt.synthesisPrompt ss ctx.tasks ctx.session) with
    | error e0 =>
      simp only [stagedSummarization, hr, hg, Except.error.injEq] at h ⊢
      refine ⟨trivial, calls0,
        GenPrompt.synthesisPrompt ss ctx.tasks ctx.session, rfl, ?_, ?_⟩
      · rw [hg]
        exact congrArg Except.error h
      · exact runStages_calls_ok gen _ _ 0 calls0 ss hr
    | ok content =>
      simp only [stagedSummarization, hr, hg] at h
      exact absurd h (by simp)

/-- C6 witness: a 25-thought session whose stage-2 generation call fails
persists nothing, and the failing run stops at that second call. -/
theorem c6_staged_failure_atomic_witness :
    (stagedSummarization genFail2 0 ctx25).saved = []
    ∧ ∃ ps p, (stagedSummarization genFail2 0 ctx25).calls = ps ++ [p]
        ∧ genFail2 p = .error ['x']
        ∧ ∀ q ∈ ps, ∃ s, genFail2 q = .ok s :=
  c6_staged_failure_atomic genFail2 0 ctx25 ['x'] (by rfl)

/-! ## Parsed-map lemmas -/

theorem mapGet_mapSet_ne {α : Type} (k k' : List Char) (v : α)
    (hne : k' ≠ k) :
    ∀ m : List (List Char × α), mapGet (mapSet m k v) k' = mapGet m k' := by
  intro m
  induction m with
  | nil =>
    simp only [mapSet, mapGet]
    rw [if_neg (fun he : k = k' => hne he.symm)]
  | cons p rest ih =>
    by_cases hpk : p.1 = k
    · simp only [mapSet, if_pos hpk, mapGet]
      rw [if_neg (fun he : k = k' => hne he.symm),
        if_neg (fun he : p.1 = k' => hne (he.symm.trans hpk))]
    · simp only [mapSet, if_neg hpk, mapGet]
      by_cases hpk' : p.1 = k'
      · rw [if_pos hpk', if_pos hpk']
      · rw [if_neg hpk', if_neg hpk', ih]

theorem parse_fold_isSome {α β : Type} (f : β → List Char × α) :
    ∀ (l : List β) (acc : List (List Char × α)) (k : List Char),
      (mapGet (l.foldl (fun d x => mapSet d (f x).1 (f x).2) acc) k).isSome
        ↔ (mapGet acc k).isSome ∨ k ∈ l.map (fun x => (f x).1) := by
  intro l
  induction l with
  | nil => intro acc k; simp
  | cons x xs ih =>
    intro acc k
    rw [List.foldl_cons, ih]
    by_cases hk : k = (f x).1
    · constructor
      · intro _
        exact Or.inr (List.mem_cons.mpr (Or.inl hk))
      · intro _
        left
        rw [hk, mapGet_mapSet_self]
        rfl
    · rw [mapGet_mapSet_ne _ _ _ hk]
      simp only [List.map_cons, List.mem_cons]
      constructor
      · rintro (h | h)
        · exact Or.inl h
        · exact Or.inr (Or.inr h)
      · rintro (h | h | h)
        · exact Or.inl h
        · exact absurd h hk
        · exact Or.inr h

/-- The keys of the parsed map are exactly the session ids of the blocks
found in the response text. -/
theorem parse_keys_isSome (response : List Char)
    (sessions : List SessionContext) :
    ∀ id, (mapGet (parseBatchResponse response sessions) id).isSome
      ↔ id ∈ (scanBlocks response).map Prod.fst := by
  intro id
  unfold parseBatchResponse
  rw [parse_fold_isSome blockEntry (scanBlocks response) [] id]
  have hmap : (scanBlocks response).map (fun b => (blockEntry b).1)
      = (scanBlocks response).map Prod.fst := by
    apply List.map_congr_left
    intro b _
    rfl
  rw [hmap]
  simp [mapGet]

/-! ## Section-extraction lemmas -/

theorem splitFirstCI_eq_none (pat : List Char) (hpat : lower pat ≠ []) :
    ∀ s : List Char,
      (∀ i, i < s.length →
        leadsWith (lower pat) (lower (s.drop i)) = false) →
      splitFirstCI pat s = none := by
  intro s
  induction s with
  | nil =>
    intro _
    unfold splitFirstCI
    cases hl : lower pat with
    | nil => exact absurd hl hpat
    | cons p ps =>
      simp [leadsWith]
  | cons c cs ih =>
    intro h
    have h0 : leadsWith (lower pat) (lower (c :: cs)) = false :=
      h 0 (by simp)
    simp only [splitFirstCI, h0, Bool.false_eq_true, if_false]
    rw [ih ?_]
    · rfl
    · intro i hi
      exact h (i + 1) (by simp only [List.length_cons]; omega)

theorem splitFirstCI_congr (p1 p2 : List Char) (hl : lower p1 = lower p2) :
    ∀ s, splitFirstCI p1 s = splitFirstCI p2 s := by
  have hlen : p1.length = p2.length := by
    have h := congrArg List.length hl
    simpa [lower] using h
  intro s
  induction s with
  | nil => simp [splitFirstCI, hl]
  | cons c cs ih =>
    simp only [splitFirstCI, hl, hlen, ih]

theorem extractSection_no_header (content name : List Char)
    (h : ∀ i, i < content.length →
      leadsWith (lower (headerMarker name)) (lower (content.drop i)) = false) :
    extractSection content name = [] := by
  have hn := splitFirstCI_eq_none (headerMarker name)
    (by simp [lower, headerMarker, headerStart]) content h
  unfold extractSection
  rw [hn]

theorem extractTags_no_header (content : List Char)
    (h : ∀ i, i < content.length →
      leadsWith (lower (headerMarker nameTags)) (lower (content.drop i)) = false) :
    extractTags content = [] := by
  unfold extractTags
  rw [extractSection_no_header content nameTags h]

theorem extractSection_ci (content n1 n2 : List Char)
    (h : lower n1 = lower n2) :
    extractSection content n1 = extractSection content n2 := by
  have h' := h
  unfold lower at h'
  have hm : lower (headerMarker n1) = lower (headerMarker n2) := by
    unfold lower headerMarker
    simp only [List.map_append, h']
  unfold extractSection
  rw [splitFirstCI_congr _ _ hm content]

/-! ## C7: tolerant batch-response parsing -/

/-- C7 (counterexample): two well-formed blocks bearing the same session
id produce a single map entry, not one entry per block — the later block
overwrites the earlier one under the same key. -/
theorem c7_claim_false_duplicate_blocks :
    (scanBlocks dupResponse).length = 2
    ∧ (parseBatchResponse dupResponse []).length = 1 := by
  constructor
  · decide
  · decide

/-- C7 (amended): parseBatchResponse holds exactly one entry per
distinct session id among the well-formed SESSION_START/SESSION_END
blocks of the response (a duplicate-id block overwrites the earlier
entry): an id has an entry iff some block bears it, so an expected id
with no block simply has no entry and raises no error; a missing ##
section header yields an empty extracted section (and an empty tag
list), never a parse failure; and header matching is case-insensitive. -/
theorem c7_tolerant_parsing (response : List Char)
    (sessions : List SessionContext) :
    (∀ id, (mapGet (parseBatchResponse response sessions) id).isSome
        ↔ id ∈ (scanBlocks response).map Prod.fst)
    ∧ (∀ content name,
        (∀ i, i < content.length →
          leadsWith (lower (headerMarker name)) (lower (content.drop i))
            = false) →
        extractSection content name = [])
    ∧ (∀ content,
        (∀ i, i < content.length →
          leadsWith (lower (headerMarker nameTags)) (lower (content.drop i))
            = false) →
        extractTags content = [])
    ∧ (∀ content n1 n2, lower n1 = lower n2 →
        extractSection content n1 = extractSection content n2) :=
  ⟨parse_keys_isSome response sessions,
   fun content name => extractSection_no_header content name,
   fun content => extractTags_no_header content,
   fun content n1 n2 => extractSection_ci content n1 n2⟩

/-- C7 witness: the duplicate-id response yields an entry for its id,
and a text with no section markers extracts an empty Tags section. -/
theorem c7_tolerant_parsing_witness :
    (mapGet (parseBatchResponse dupResponse []) ['a']).isSome
    ∧ extractSection (("no markers").toList) nameTags = [] :=
  ⟨((c7_tolerant_parsing dupResponse []).1 ['a']).mpr (by decide),
   (c7_tolerant_parsing dupResponse []).2.1 (("no markers").toList) nameTags
     (by decide)⟩

/-! ## C8: idle auto-finalization -/

/-- C8: every session the idle scanner finds idle beyond the configured
timeout is auto-finalized and republished: the persisted record has
outcome completed exactly when at least one of its tasks has completed
status (else abandoned), status finalized, the autoFinalized flag set,
updatedAt refreshed to the scan time, and the published bus event is a
session.idle_timeout event for that session carrying the same derived
outcome. -/
theorem c8_idle_auto_finalize (idleM : Nat) (now : Int)
    (tasksOf : List Char → List TaskCommit) (active : List Session)
    (s : Session) (hmem : s ∈ active)
    (hidle : (idleM : Int) * 60 * 1000 < now - s.updatedAt) :
    autoFinalize idleM now s (tasksOf s.id) ∈ scan idleM now tasksOf active
    ∧ ((autoFinalize idleM now s (tasksOf s.id)).1.outcome
          = some Outcome.completed
        ↔ ∃ t ∈ tasksOf s.id, t.status = TaskStatus.completed)
    ∧ ((autoFinalize idleM now s (tasksOf s.id)).1.outcome
          = some Outcome.completed
        ∨ (autoFinalize idleM now s (tasksOf s.id)).1.outcome
          = some Outcome.abandoned)
    ∧ (autoFinalize idleM now s (tasksOf s.id)).1.status
        = SessionStatus.finalized
    ∧ (autoFinalize idleM now s (tasksOf s.id)).1.autoFinalized = some true
    ∧ (autoFinalize idleM now s (tasksOf s.id)).1.updatedAt = now
    ∧ (autoFinalize idleM now s (tasksOf s.id)).1.id = s.id
    ∧ (autoFinalize idleM now s (tasksOf s.id)).2.type
        = EventType.sessionIdleTimeout
    ∧ (autoFinalize idleM now s (tasksOf s.id)).2.sessionId = s.id
    ∧ (autoFinalize idleM now s (tasksOf s.id)).2.payload.outcome
        = (autoFinalize idleM now s (tasksOf s.id)).1.outcome := by
  have hiff : 0 < ((tasksOf s.id).filter
        (fun t => decide (t.status = TaskStatus.completed))).length
      ↔ ∃ t ∈ tasksOf s.id, t.status = TaskStatus.completed := by
    constructor
    · intro hpos
      obtain ⟨t, ht⟩ := List.exists_mem_of_length_pos hpos
      rw [List.mem_filter] at ht
      exact ⟨t, ht.1, by simpa using ht.2⟩
    · rintro ⟨t, htm, hts⟩
      rw [List.length_pos]
      intro hnil
      have hf := List.filter_eq_nil_iff.mp hnil t htm
      simp [hts] at hf
  refine ⟨?_, ?_, ?_, rfl, rfl, rfl, rfl, rfl, rfl, rfl⟩
  · unfold scan
    apply List.mem_map_of_mem
    rw [List.mem_filter]
    exact ⟨hmem, by simpa using hidle⟩
  · unfold autoFinalize
    by_cases hc : 0 < ((tasksOf s.id).filter
        (fun t => decide (t.status = TaskStatus.completed))).length
    · simp only [hc, if_true, if_pos hc]
      simp [hiff.mp hc]
    · simp only [if_neg hc]
      simp only [Option.some.injEq]
      constructor
      · intro hco
        exact absurd hco (by decide)
      · intro hex
        exact absurd (hiff.mpr hex) hc
  · unfold autoFinalize
    by_cases hc : 0 < ((tasksOf s.id).filter
        (fun t => decide (t.status = TaskStatus.completed))).length
    · simp [if_pos hc]
    · simp [if_neg hc]

/-- C8 witness: an active session idle for far longer than the timeout,
with one completed task, is finalized by the scanner with outcome
completed and its pair of persisted record and published event appears
in the scan output. -/
theorem c8_idle_auto_finalize_witness :
    autoFinalize 10 10000000 sessionC (tasksOfC sessionC.id)
        ∈ scan 10 10000000 tasksOfC [sessionC]
    ∧ (autoFinalize 10 10000000 sessionC (tasksOfC sessionC.id)).1.outcome
        = some Outcome.completed :=
  ⟨(c8_idle_auto_finalize 10 10000000 tasksOfC [sessionC] sessionC
      (by decide) (by decide)).1,
   ((c8_idle_auto_finalize 10 10000000 tasksOfC [sessionC] sessionC
      (by decide) (by decide)).2.1).mpr ⟨taskDone, by decide, rfl⟩⟩

/-! ## C10: parsing never consults the expected sessions -/

/-- C10: parseBatchResponse is independent of its expected-sessions
argument — the same response parses identically against any two batches;
the map's keys come solely from the SESSION_START markers in the
response, so a well-formed block with a foreign id still produces an
entry; and the subsequent save loop persists documents only for the
batch's own session ids. -/
theorem c10_parse_keys_from_response (response : List Char)
    (s1 s2 : List SessionContext) (now : Int) :
    parseBatchResponse response s1 = parseBatchResponse response s2
    ∧ (∀ id, (mapGet (parseBatchResponse response s1) id).isSome
        ↔ id ∈ (scanBlocks response).map Prod.fst)
    ∧ (∀ d ∈ tierBatchSaves now (parseBatchResponse response s1) s2,
        ∃ s ∈ s2, d.sessionId = s.session.id) := by
  refine ⟨rfl, parse_keys_isSome response s1, ?_⟩
  intro d hd
  unfold tierBatchSaves at hd
  rw [List.mem_filterMap] at hd
  obtain ⟨s, hs, hm⟩ := hd
  refine ⟨s, hs, ?_⟩
  cases hg : mapGet (parseBatchResponse response s1) s.session.id with
  | none =>
    rw [hg] at hm
    simp at hm
  | some p =>
    rw [hg] at hm
    simp only [Option.map_some'] at hm
    injection hm with hm
    rw [← hm]
    rfl

/-- C10 witness: a block whose id belongs to no batch session still
produces a parsed entry. -/
theorem c10_parse_keys_from_response_witness :
    (mapGet (parseBatchResponse zResponse [ctxA]) ['z']).isSome :=
  ((c10_parse_keys_from_response zResponse [ctxA] [ctxA] 0).2.1 ['z']).mpr
    (by decide)

end DevPattern
